import Mathlib

/-!
# Load & I/P Calculation — verification of the calculation engine

Shallow embedding of the tire load / inflation-pressure calculator
(`src/lib/calc.ts` and the per-position pipeline of `src/app/page.tsx`).

JavaScript `number` arithmetic is idealized as exact real arithmetic (`ℝ`),
which is the arithmetic the specification's formulas are written in.  The one
place where IEEE-style special values matter — division by a zero load index
inside `calcIPByETRTO` — is additionally modelled by the `JSNum` type, which
carries the JavaScript values `Infinity`, `-Infinity` and `NaN` explicitly so
that the (non-)error behaviour of `/` and `Math.pow` can be stated faithfully.
-/

/-- The six speed symbols `"F" | "G" | "J" | "K" | "L" | "M"` of `calc.ts`. -/
inductive SpeedSymbol where
  | F | G | J | K | L | M
deriving DecidableEq

/-- One row of the speed table (`SpeedRow` in `calc.ts`).  The six per-symbol
load factors are `Option ℝ`: the reference JSON stores `null` for symbols that
are not applicable at a given speed (the UI and the exporters test the fields
against `null` before rendering them). -/
structure SpeedRow where
  speed : ℝ
  F : Option ℝ
  G : Option ℝ
  J : Option ℝ
  K : Option ℝ
  L : Option ℝ
  M : Option ℝ
  psi : ℝ

/-- The dynamic field access `row[symbol]` of `calc.ts`. -/
def SpeedRow.factor (row : SpeedRow) (sym : SpeedSymbol) : Option ℝ :=
  match sym with
  | .F => row.F
  | .G => row.G
  | .J => row.J
  | .K => row.K
  | .L => row.L
  | .M => row.M

/-- A tire specification (`Tire` in `calc.ts`). -/
structure Tire where
  tireSize : String
  loadIndex : ℝ
  stdIP : ℝ
  speedSymbol : SpeedSymbol

/-- The reference data object (`TireData` in `calc.ts`). -/
structure TireData where
  tires : List Tire
  speed_table : List SpeedRow

/-- Row constructor with all six factors `null`; used for concrete tables. -/
noncomputable def mkRow (sp ps : ℝ) : SpeedRow :=
  ⟨sp, none, none, none, none, none, none, ps⟩

/-- One step of the stable sort `[...data.speed_table].sort((a, b) => a.speed - b.speed)`:
insert a row in front of the first element whose speed is not smaller. -/
noncomputable def insertBySpeed (r : SpeedRow) : List SpeedRow → List SpeedRow
  | [] => [r]
  | x :: xs => if r.speed ≤ x.speed then r :: x :: xs else x :: insertBySpeed r xs

/-- Stable sort of the speed table by ascending speed, as performed by the
JavaScript `Array.prototype.sort` call in `lookupSpeedRow`. -/
noncomputable def sortBySpeed : List SpeedRow → List SpeedRow
  | [] => []
  | x :: xs => insertBySpeed x (sortBySpeed xs)

/-- The scan `let row = sorted[0]; for (const r of sorted) if (r.speed <= speed) row = r;`
of `lookupSpeedRow`. -/
noncomputable def scanRows (speed : ℝ) (l : List SpeedRow) (acc : SpeedRow) : SpeedRow :=
  l.foldl (fun row r => if r.speed ≤ speed then r else row) acc

/-- `lookupSpeedRow` of `calc.ts`: sort a copy of the table by ascending speed,
then take the last row whose speed is at most the target (defaulting to the
first row of the sorted copy).  `none` models the `undefined` that the source
produces when the table is empty (`sorted[0]` of an empty array). -/
noncomputable def lookupSpeedRow (data : TireData) (speed : ℝ) : Option SpeedRow :=
  let sorted := sortBySpeed data.speed_table
  sorted.head?.map (fun first => scanRows speed sorted first)

/-- State-passing form of `lookupSpeedRow`.  The source sorts the spread-copy
`[...data.speed_table]` in place and never writes to the caller's array, so the
caller-visible state (second component) is the input data unchanged. -/
noncomputable def lookupSpeedRowSt (data : TireData) (speed : ℝ) :
    Option SpeedRow × TireData :=
  let copy := data.speed_table
  let sorted := sortBySpeed copy
  (sorted.head?.map (fun first => scanRows speed sorted first), data)

/-- `calcResultLoad` of `calc.ts`:
`loadPerTire >= loadIndex * 1.15 ? "Over Load" : "OK"`. -/
noncomputable def calcResultLoad (loadPerTire loadIndex : ℝ) : String :=
  let maxAllowedLoad := loadIndex * 1.15
  if loadPerTire ≥ maxAllowedLoad then "Over Load" else "OK"

/-- `getLimitLoad` of `calc.ts`: `loadIndex * row[symbol]`.  A `null` factor
(modelled `none`) multiplies as `0` in JavaScript, so it contributes `0`. -/
noncomputable def getLimitLoad (loadIndex : ℝ) (row : SpeedRow) (sym : SpeedSymbol) : ℝ :=
  loadIndex * (row.factor sym).getD 0

/-- `calcIPByETRTO` of `calc.ts` in exact arithmetic:
`((loadPerTire / loadIndex) ^ 1.25) * stdIP`. -/
noncomputable def calcIPByETRTO (loadPerTire loadIndex stdIP : ℝ) : ℝ :=
  (loadPerTire / loadIndex) ^ (1.25 : ℝ) * stdIP

/-- `calcResultIP` of `calc.ts`:
`ipByETRTO >= stdIP * 1.1 ? "CONSULT TO BS" : "OK"`. -/
noncomputable def calcResultIP (ipByETRTO stdIP : ℝ) : String :=
  let maxAllowedIP := stdIP * 1.1
  if ipByETRTO ≥ maxAllowedIP then "CONSULT TO BS" else "OK"

/-- JavaScript `x.toFixed(0)` on an exact value: round half away from zero and
print; a negative argument keeps its sign (so `-0.2` prints as `"-0"`). -/
noncomputable def jsToFixed0 (x : ℝ) : String :=
  if x < 0 then "-" ++ toString ⌊-x + 1 / 2⌋ else toString ⌊x + 1 / 2⌋

/-- The `{load, ip}` pair returned by `calcDamage`. -/
structure Damage where
  load : String
  ip : String

/-- `calcDamage` of `calc.ts`: each component is `"OK"` when the value is at
most its threshold, otherwise the rounded overage percentage with `"%"`. -/
noncomputable def calcDamage (loadPerTire loadIndex ipByETRTO stdIP : ℝ) : Damage :=
  let damageByLoad :=
    if loadPerTire ≤ loadIndex * 1.15 then "OK"
    else jsToFixed0 ((loadPerTire - loadIndex) / loadIndex * 100) ++ "%"
  let damageByIP :=
    if ipByETRTO ≤ stdIP * 1.10 then "OK"
    else jsToFixed0 ((ipByETRTO - stdIP) / stdIP * 100) ++ "%"
  ⟨damageByLoad, damageByIP⟩

/-- An axle position (`TirePosition` in `page.tsx`); `tiresPerPosition` is `2`
or `4` in the source type. -/
structure TirePosition where
  id : String
  loadDistribution : ℝ
  tiresPerPosition : ℝ

/-- The per-position load formula of `page.tsx`:
`(totalLoad * loadDistribution / tiresPerPosition) * 1000` (tons to kg). -/
noncomputable def loadPerTire (totalLoad loadDistribution tiresPerPosition : ℝ) : ℝ :=
  totalLoad * loadDistribution / tiresPerPosition * 1000

/-- A per-position result record (`positionResults` element in `page.tsx`). -/
structure PositionResult where
  position : TirePosition
  row : SpeedRow
  loadPerTire : ℝ
  limitLoad : ℝ
  ipByETRTO : ℝ
  resultLoad : String
  resultIP : String
  damage : Damage

/-- The `positionResults` memo of `page.tsx`: resolve the speed row once, then
map every position through the calculator and evaluator.  `none` models the
crash the source would hit when the speed table is empty (`row` undefined). -/
noncomputable def positionResults (data : TireData) (selectedTire : Tire)
    (totalLoad speed : ℝ) (positions : List TirePosition) :
    Option (List PositionResult) :=
  (lookupSpeedRow data speed).map fun row =>
    positions.map fun pos =>
      let lp := loadPerTire totalLoad pos.loadDistribution pos.tiresPerPosition
      let ip := calcIPByETRTO lp selectedTire.loadIndex selectedTire.stdIP
      { position := pos
        row := row
        loadPerTire := lp
        limitLoad := getLimitLoad selectedTire.loadIndex row selectedTire.speedSymbol
        ipByETRTO := ip
        resultLoad := calcResultLoad lp selectedTire.loadIndex
        resultIP := calcResultIP ip selectedTire.stdIP
        damage := calcDamage lp selectedTire.loadIndex ip selectedTire.stdIP }

/-- JavaScript numbers with their special values, for the parts of the spec
that talk about failure on division by zero.  `num` is a finite value (exact,
ignoring rounding and the sign of zero). -/
inductive JSNum where
  | num : ℝ → JSNum
  | posInf
  | negInf
  | nan

/-- JavaScript `/` restricted to the value classes above: total, never throws;
a positive finite value divided by zero gives `Infinity`. -/
noncomputable def jsDiv : JSNum → JSNum → JSNum
  | .nan, _ => .nan
  | .num a, .num b =>
      if b = 0 then (if 0 < a then .posInf else if a < 0 then .negInf else .nan)
      else .num (a / b)
  | .num _, .posInf => .num 0
  | .num _, .negInf => .num 0
  | .num _, .nan => .nan
  | .posInf, .num b => if 0 ≤ b then .posInf else .negInf
  | .negInf, .num b => if 0 ≤ b then .negInf else .posInf
  | .posInf, _ => .nan
  | .negInf, _ => .nan

/-- JavaScript `*` on the same value classes. -/
noncomputable def jsMul : JSNum → JSNum → JSNum
  | .nan, _ => .nan
  | .num a, .num b => .num (a * b)
  | .num a, .posInf => if 0 < a then .posInf else if a < 0 then .negInf else .nan
  | .num a, .negInf => if 0 < a then .negInf else if a < 0 then .posInf else .nan
  | .num _, .nan => .nan
  | .posInf, .num b => if 0 < b then .posInf else if b < 0 then .negInf else .nan
  | .negInf, .num b => if 0 < b then .negInf else if b < 0 then .posInf else .nan
  | .posInf, .posInf => .posInf
  | .posInf, .negInf => .negInf
  | .negInf, .posInf => .negInf
  | .negInf, .negInf => .posInf
  | .posInf, .nan => .nan
  | .negInf, .nan => .nan

/-- JavaScript `Math.pow(x, 1.25)` (ECMA `Number::exponentiate` with the fixed
positive non-integer exponent `1.25`): positive finite bases follow the real
power function, a negative finite base gives `NaN`, both infinities give
`Infinity`. -/
noncomputable def jsPow125 : JSNum → JSNum
  | .nan => .nan
  | .num a => if 0 < a then .num (a ^ (1.25 : ℝ)) else if a = 0 then .num 0 else .nan
  | .posInf => .posInf
  | .negInf => .posInf

/-- `calcIPByETRTO` evaluated in JavaScript number semantics:
`Math.pow(loadPerTire / loadIndex, 1.25) * stdIP`. -/
noncomputable def calcIPByETRTOjs (loadPerTire loadIndex stdIP : JSNum) : JSNum :=
  jsMul (jsPow125 (jsDiv loadPerTire loadIndex)) stdIP

/-! ## Helper lemmas about the sort and the scan of `lookupSpeedRow` -/

theorem insertBySpeed_perm (r : SpeedRow) (l : List SpeedRow) :
    List.Perm (insertBySpeed r l) (r :: l) := by
  induction l with
  | nil => simp [insertBySpeed]
  | cons x xs ih =>
      by_cases h : r.speed ≤ x.speed
      · simp [insertBySpeed, h]
      · simp only [insertBySpeed, if_neg h]
        exact (List.Perm.cons x ih).trans (List.Perm.swap r x xs)

theorem sortBySpeed_perm (l : List SpeedRow) : List.Perm (sortBySpeed l) l := by
  induction l with
  | nil => simp [sortBySpeed]
  | cons x xs ih =>
      exact (insertBySpeed_perm x (sortBySpeed xs)).trans (List.Perm.cons x ih)

theorem insertBySpeed_sorted (r : SpeedRow) (l : List SpeedRow)
    (hl : l.Pairwise (fun a b => a.speed ≤ b.speed)) :
    (insertBySpeed r l).Pairwise (fun a b => a.speed ≤ b.speed) := by
  induction l with
  | nil => simp [insertBySpeed]
  | cons x xs ih =>
      rcases List.pairwise_cons.mp hl with ⟨hx, hxs⟩
      by_cases h : r.speed ≤ x.speed
      · simp only [insertBySpeed, if_pos h]
        refine List.pairwise_cons.mpr ⟨?_, hl⟩
        intro y hy
        rcases List.mem_cons.mp hy with rfl | hy2
        · exact h
        · exact h.trans (hx y hy2)
      · simp only [insertBySpeed, if_neg h]
        refine List.pairwise_cons.mpr ⟨?_, ih hxs⟩
        intro y hy
        have hy2 : y ∈ r :: xs := (insertBySpeed_perm r xs).mem_iff.mp hy
        rcases List.mem_cons.mp hy2 with rfl | hy3
        · exact (not_le.mp h).le
        · exact hx y hy3

theorem sortBySpeed_sorted (l : List SpeedRow) :
    (sortBySpeed l).Pairwise (fun a b => a.speed ≤ b.speed) := by
  induction l with
  | nil => simp [sortBySpeed]
  | cons x xs ih => exact insertBySpeed_sorted x _ ih

theorem scanRows_nil (s : ℝ) (acc : SpeedRow) : scanRows s [] acc = acc := rfl

theorem scanRows_cons (s : ℝ) (x : SpeedRow) (xs : List SpeedRow) (acc : SpeedRow) :
    scanRows s (x :: xs) acc = scanRows s xs (if x.speed ≤ s then x else acc) := rfl

theorem scanRows_mem (s : ℝ) (l : List SpeedRow) (acc : SpeedRow) :
    scanRows s l acc = acc ∨
      (scanRows s l acc ∈ l ∧ (scanRows s l acc).speed ≤ s) := by
  induction l generalizing acc with
  | nil => exact Or.inl rfl
  | cons x xs ih =>
      rw [scanRows_cons]
      by_cases h : x.speed ≤ s
      · rw [if_pos h]
        rcases ih x with heq | ⟨hmem, hle⟩
        · refine Or.inr ⟨?_, ?_⟩
          · rw [heq]; exact List.mem_cons_self x xs
          · rw [heq]; exact h
        · exact Or.inr ⟨List.mem_cons_of_mem x hmem, hle⟩
      · rw [if_neg h]
        rcases ih acc with heq | ⟨hmem, hle⟩
        · exact Or.inl heq
        · exact Or.inr ⟨List.mem_cons_of_mem x hmem, hle⟩

theorem scanRows_max (s : ℝ) (l : List SpeedRow) (acc : SpeedRow)
    (hl : l.Pairwise (fun a b => a.speed ≤ b.speed)) :
    ∀ r ∈ l, r.speed ≤ s → r.speed ≤ (scanRows s l acc).speed := by
  induction l generalizing acc with
  | nil => intro r hr; exact absurd hr (List.not_mem_nil r)
  | cons x xs ih =>
      rcases List.pairwise_cons.mp hl with ⟨hx, hxs⟩
      intro r hr hrs
      rw [scanRows_cons]
      rcases List.mem_cons.mp hr with rfl | hmem
      · rw [if_pos hrs]
        rcases scanRows_mem s xs r with heq | ⟨hmem2, _⟩
        · simp [heq]
        · exact hx _ hmem2
      · exact ih (if x.speed ≤ s then x else acc) hxs r hmem hrs

theorem scanRows_none (s : ℝ) (l : List SpeedRow) (acc : SpeedRow)
    (h : ∀ r ∈ l, ¬ r.speed ≤ s) : scanRows s l acc = acc := by
  induction l generalizing acc with
  | nil => rfl
  | cons x xs ih =>
      rw [scanRows_cons, if_neg (h x (List.mem_cons_self x xs))]
      exact ih acc (fun r hr => h r (List.mem_cons_of_mem x hr))

theorem lookupSpeedRow_char (tires : List Tire) (table : List SpeedRow) (s : ℝ)
    (hne : table ≠ []) :
    ∃ r, lookupSpeedRow ⟨tires, table⟩ s = some r ∧ r ∈ table ∧
      ((∃ x ∈ table, x.speed ≤ s) →
        r.speed ≤ s ∧ ∀ x ∈ table, x.speed ≤ s → x.speed ≤ r.speed) ∧
      ((∀ x ∈ table, s < x.speed) → ∀ x ∈ table, r.speed ≤ x.speed) := by
  have hperm := sortBySpeed_perm table
  have hsorted := sortBySpeed_sorted table
  cases hsort : sortBySpeed table with
  | nil =>
      exfalso
      apply hne
      rw [hsort] at hperm
      exact List.Perm.eq_nil hperm.symm
  | cons first rest =>
      rw [hsort] at hperm hsorted
      have hlook : lookupSpeedRow ⟨tires, table⟩ s
          = some (scanRows s (first :: rest) first) := by
        simp only [lookupSpeedRow]
        rw [hsort]
        rfl
      have hfirstmin : ∀ y ∈ first :: rest, first.speed ≤ y.speed := by
        intro y hy
        rcases List.mem_cons.mp hy with rfl | hy2
        · exact le_rfl
        · exact (List.pairwise_cons.mp hsorted).1 y hy2
      refine ⟨scanRows s (first :: rest) first, hlook, ?_, ?_, ?_⟩
      · rcases scanRows_mem s (first :: rest) first with heq | ⟨hmem, _⟩
        · rw [heq]; exact hperm.subset (List.mem_cons_self first rest)
        · exact hperm.subset hmem
      · rintro ⟨x, hx, hxs⟩
        have hx2 : x ∈ first :: rest := hperm.mem_iff.mpr hx
        constructor
        · rcases scanRows_mem s (first :: rest) first with heq | ⟨_, hle⟩
          · rw [heq]; exact (hfirstmin x hx2).trans hxs
          · exact hle
        · intro y hy hys
          exact scanRows_max s (first :: rest) first hsorted y (hperm.mem_iff.mpr hy) hys
      · intro hall y hy
        have heq : scanRows s (first :: rest) first = first := by
          apply scanRows_none
          intro r hr
          exact not_le.mpr (hall r (hperm.subset hr))
        rw [heq]
        have hy2 : y ∈ first :: rest := hperm.mem_iff.mpr hy
        exact hfirstmin y hy2

theorem speed_inj_of_pairwise (table : List SpeedRow)
    (hdist : table.Pairwise (fun a b => a.speed ≠ b.speed)) :
    ∀ a ∈ table, ∀ b ∈ table, a.speed = b.speed → a = b := by
  intro a ha b hb heq
  by_contra hne
  exact (hdist.forall (fun x y h => Ne.symm h)) ha hb hne heq

/-! ## Evaluation helpers for concrete tables -/

theorem sortBySpeed_single (a : SpeedRow) : sortBySpeed [a] = [a] := by
  simp only [sortBySpeed, insertBySpeed]

theorem sortBySpeed_pair (a b : SpeedRow) :
    sortBySpeed [a, b] = if a.speed ≤ b.speed then [a, b] else [b, a] := by
  simp only [sortBySpeed, insertBySpeed]

theorem lookupSpeedRow_eval (tires : List Tire) (table : List SpeedRow) (s : ℝ)
    (first : SpeedRow) (rest : List SpeedRow)
    (h : sortBySpeed table = first :: rest) :
    lookupSpeedRow ⟨tires, table⟩ s = some (scanRows s (first :: rest) first) := by
  simp only [lookupSpeedRow]
  rw [h]
  rfl

/-- C10: `lookupSpeedRow` does not modify its input: in the state-passing form
the caller-visible data after the call is exactly the data before it, and the
returned row agrees with the plain function — even though the scan runs over a
sorted copy that genuinely differs from the stored order (second conjunct). -/
theorem lookupSpeedRowSt_frame :
    (∀ (data : TireData) (speed : ℝ),
      (lookupSpeedRowSt data speed).2 = data ∧
      (lookupSpeedRowSt data speed).1 = lookupSpeedRow data speed) ∧
    sortBySpeed [mkRow 20 1, mkRow 10 2] = [mkRow 10 2, mkRow 20 1] := by
  refine ⟨fun data speed => ⟨rfl, rfl⟩, ?_⟩
  rw [sortBySpeed_pair, if_neg (by norm_num [mkRow])]

/-- C2 counterexample: two tables that are permutations of one another (two
rows share speed 10 but differ in their psi payload) make `lookupSpeedRow`
return different rows, so the result is not independent of storage order. -/
theorem lookupSpeedRow_duplicate_cex :
    lookupSpeedRow ⟨[], [mkRow 10 1, mkRow 10 2]⟩ 50
      ≠ lookupSpeedRow ⟨[], [mkRow 10 2, mkRow 10 1]⟩ 50 := by
  have hs1 : sortBySpeed [mkRow 10 1, mkRow 10 2] = [mkRow 10 1, mkRow 10 2] := by
    rw [sortBySpeed_pair, if_pos (by norm_num [mkRow])]
  have hs2 : sortBySpeed [mkRow 10 2, mkRow 10 1] = [mkRow 10 2, mkRow 10 1] := by
    rw [sortBySpeed_pair, if_pos (by norm_num [mkRow])]
  have h1 : lookupSpeedRow ⟨[], [mkRow 10 1, mkRow 10 2]⟩ 50 = some (mkRow 10 2) := by
    rw [lookupSpeedRow_eval [] _ 50 _ _ hs1]
    rw [scanRows_cons, if_pos (by norm_num [mkRow] : (mkRow 10 1).speed ≤ (50:ℝ))]
    rw [scanRows_cons, if_pos (by norm_num [mkRow] : (mkRow 10 2).speed ≤ (50:ℝ))]
    rw [scanRows_nil]
  have h2 : lookupSpeedRow ⟨[], [mkRow 10 2, mkRow 10 1]⟩ 50 = some (mkRow 10 1) := by
    rw [lookupSpeedRow_eval [] _ 50 _ _ hs2]
    rw [scanRows_cons, if_pos (by norm_num [mkRow] : (mkRow 10 2).speed ≤ (50:ℝ))]
    rw [scanRows_cons, if_pos (by norm_num [mkRow] : (mkRow 10 1).speed ≤ (50:ℝ))]
    rw [scanRows_nil]
  rw [h1, h2]
  intro h
  have h3 : (mkRow 10 2).psi = (mkRow 10 1).psi := by
    rw [Option.some.injEq] at h
    rw [h]
  norm_num [mkRow] at h3

/-- C2 (amended): for a non-empty table whose rows carry pairwise distinct
speed values, `lookupSpeedRow` returns the row with the greatest speed that is
at most the target speed; when the target is below every row it returns the
row of smallest speed; a row whose speed equals the target is returned itself;
and the result is invariant under permuting the stored rows. -/
theorem lookupSpeedRow_resolves (tires : List Tire) (table : List SpeedRow) (s : ℝ)
    (hne : table ≠ [])
    (hdist : table.Pairwise (fun a b => a.speed ≠ b.speed)) :
    ∃ r, lookupSpeedRow ⟨tires, table⟩ s = some r ∧ r ∈ table ∧
      ((∃ x ∈ table, x.speed ≤ s) →
        r.speed ≤ s ∧ ∀ x ∈ table, x.speed ≤ s → x.speed ≤ r.speed) ∧
      ((∀ x ∈ table, s < x.speed) → ∀ x ∈ table, r.speed ≤ x.speed) ∧
      (∀ x ∈ table, x.speed = s → r = x) ∧
      (∀ (tires2 : List Tire) (table2 : List SpeedRow), List.Perm table2 table →
        lookupSpeedRow ⟨tires2, table2⟩ s = some r) := by
  obtain ⟨r, hr, hrmem, hrqual, hrnone⟩ := lookupSpeedRow_char tires table s hne
  refine ⟨r, hr, hrmem, hrqual, hrnone, ?_, ?_⟩
  · intro x hx hxs
    obtain ⟨hrle, hrmax⟩ := hrqual ⟨x, hx, le_of_eq hxs⟩
    have h1 : x.speed ≤ r.speed := hrmax x hx (le_of_eq hxs)
    have h2 : r.speed = x.speed := le_antisymm (by rw [hxs]; exact hrle) h1
    exact speed_inj_of_pairwise table hdist r hrmem x hx h2
  · intro tires2 table2 hperm2
    have hne2 : table2 ≠ [] := by
      intro h0
      apply hne
      rw [h0] at hperm2
      exact List.Perm.eq_nil hperm2.symm
    obtain ⟨r2, hr2, hr2mem, hr2qual, hr2none⟩ := lookupSpeedRow_char tires2 table2 s hne2
    have hmem2 : ∀ y : SpeedRow, y ∈ table2 ↔ y ∈ table := fun y => hperm2.mem_iff
    suffices hrr : r2 = r by rw [hr2, hrr]
    by_cases hq : ∃ x ∈ table, x.speed ≤ s
    · obtain ⟨hrle, hrmax⟩ := hrqual hq
      have hq2 : ∃ x ∈ table2, x.speed ≤ s := by
        obtain ⟨x, hx, hxs⟩ := hq
        exact ⟨x, (hmem2 x).mpr hx, hxs⟩
      obtain ⟨hr2le, hr2max⟩ := hr2qual hq2
      have h1 : r2.speed ≤ r.speed := hrmax r2 ((hmem2 r2).mp hr2mem) hr2le
      have h2 : r.speed ≤ r2.speed := hr2max r ((hmem2 r).mpr hrmem) hrle
      exact speed_inj_of_pairwise table hdist r2 ((hmem2 r2).mp hr2mem) r hrmem
        (le_antisymm h1 h2)
    · push_neg at hq
      have hmin := hrnone hq
      have hq2 : ∀ x ∈ table2, s < x.speed := fun x hx => hq x ((hmem2 x).mp hx)
      have hmin2 := hr2none hq2
      have h1 : r.speed ≤ r2.speed := hmin r2 ((hmem2 r2).mp hr2mem)
      have h2 : r2.speed ≤ r.speed := hmin2 r ((hmem2 r).mpr hrmem)
      exact speed_inj_of_pairwise table hdist r2 ((hmem2 r2).mp hr2mem) r hrmem
        (le_antisymm h2 h1)

/-- Witness for C2 (amended): a concrete unsorted three-row table with distinct
speeds 30, 10, 20 and target speed 25, on which the characterization applies. -/
theorem lookupSpeedRow_resolves_witness :
    ([mkRow 30 1, mkRow 10 2, mkRow 20 3] : List SpeedRow) ≠ [] ∧
    ([mkRow 30 1, mkRow 10 2, mkRow 20 3] : List SpeedRow).Pairwise
      (fun a b => a.speed ≠ b.speed) ∧
    ∃ r, lookupSpeedRow ⟨[], [mkRow 30 1, mkRow 10 2, mkRow 20 3]⟩ 25 = some r ∧
      r ∈ [mkRow 30 1, mkRow 10 2, mkRow 20 3] ∧
      ((∃ x ∈ [mkRow 30 1, mkRow 10 2, mkRow 20 3], x.speed ≤ 25) →
        r.speed ≤ 25 ∧
          ∀ x ∈ [mkRow 30 1, mkRow 10 2, mkRow 20 3], x.speed ≤ 25 → x.speed ≤ r.speed) ∧
      ((∀ x ∈ [mkRow 30 1, mkRow 10 2, mkRow 20 3], (25:ℝ) < x.speed) →
        ∀ x ∈ [mkRow 30 1, mkRow 10 2, mkRow 20 3], r.speed ≤ x.speed) ∧
      (∀ x ∈ [mkRow 30 1, mkRow 10 2, mkRow 20 3], x.speed = 25 → r = x) ∧
      (∀ (tires2 : List Tire) (table2 : List SpeedRow),
        List.Perm table2 [mkRow 30 1, mkRow 10 2, mkRow 20 3] →
          lookupSpeedRow ⟨tires2, table2⟩ 25 = some r) := by
  refine ⟨by simp, by norm_num [mkRow], ?_⟩
  exact lookupSpeedRow_resolves [] [mkRow 30 1, mkRow 10 2, mkRow 20 3] 25
    (by simp) (by norm_num [mkRow])

/-- C4: `calcResultLoad` returns `"Over Load"` exactly when
`loadPerTire >= loadIndex * 1.15` (the boundary itself is overload) and `"OK"`
exactly when the load is strictly below the threshold. -/
theorem calcResultLoad_boundary (lp li : ℝ) :
    (calcResultLoad lp li = "Over Load" ↔ li * 1.15 ≤ lp) ∧
    (calcResultLoad lp li = "OK" ↔ lp < li * 1.15) := by
  simp only [calcResultLoad]
  by_cases h : lp ≥ li * 1.15
  · rw [if_pos h]
    exact ⟨⟨fun _ => h, fun _ => rfl⟩,
      ⟨fun hs => absurd hs (by decide), fun hlt => absurd h (not_le.mpr hlt)⟩⟩
  · rw [if_neg h]
    exact ⟨⟨fun hs => absurd hs (by decide), fun hle => absurd hle h⟩,
      ⟨fun _ => not_le.mp h, fun _ => rfl⟩⟩

/-- C5: `calcResultIP` returns `"CONSULT TO BS"` exactly when
`ipByETRTO >= stdIP * 1.10` (the boundary itself is non-compliant) and `"OK"`
exactly when the pressure is strictly below the threshold. -/
theorem calcResultIP_boundary (ip std : ℝ) :
    (calcResultIP ip std = "CONSULT TO BS" ↔ std * 1.1 ≤ ip) ∧
    (calcResultIP ip std = "OK" ↔ ip < std * 1.1) := by
  simp only [calcResultIP]
  by_cases h : ip ≥ std * 1.1
  · rw [if_pos h]
    exact ⟨⟨fun _ => h, fun _ => rfl⟩,
      ⟨fun hs => absurd hs (by decide), fun hlt => absurd h (not_le.mpr hlt)⟩⟩
  · rw [if_neg h]
    exact ⟨⟨fun hs => absurd hs (by decide), fun hle => absurd hle h⟩,
      ⟨fun _ => not_le.mp h, fun _ => rfl⟩⟩

/-! ## String and damage helpers -/

theorem append_percent_ne_ok (s : String) : s ++ "%" ≠ "OK" := by
  intro h
  have hd : (s ++ "%").data = "OK".data := by rw [h]
  rw [String.data_append] at hd
  have hd2 : s.data ++ ['%'] = ['O', 'K'] := hd
  have hlen : s.data.length + 1 = 2 := by
    have := congrArg List.length hd2
    simpa using this
  obtain ⟨c, hc⟩ := List.length_eq_one.mp (by omega : s.data.length = 1)
  rw [hc] at hd2
  simp only [List.cons_append, List.nil_append, List.cons.injEq, and_true] at hd2
  exact absurd hd2.2 (by decide)

theorem calcDamage_load_eq (lp li ip std : ℝ) :
    (calcDamage lp li ip std).load =
      if lp ≤ li * 1.15 then "OK"
      else jsToFixed0 ((lp - li) / li * 100) ++ "%" := rfl

theorem calcDamage_ip_eq (lp li ip std : ℝ) :
    (calcDamage lp li ip std).ip =
      if ip ≤ std * 1.10 then "OK"
      else jsToFixed0 ((ip - std) / std * 100) ++ "%" := rfl

/-- C1 counterexample: at the exact thresholds `loadPerTire = loadIndex * 1.15`
and `ipByETRTO = stdPressure * 1.10` the verdicts are the non-OK ones while
both damage fields are still the literal `"OK"`, so the claimed equivalence
between damage `"OK"` and an OK verdict fails. -/
theorem calcDamage_threshold_cex :
    (calcDamage 115 100 132 120).load = "OK" ∧
    calcResultLoad 115 100 = "Over Load" ∧
    (calcDamage 115 100 132 120).ip = "OK" ∧
    calcResultIP 132 120 = "CONSULT TO BS" := by
  refine ⟨?_, ?_, ?_, ?_⟩
  · rw [calcDamage_load_eq, if_pos (by norm_num : (115:ℝ) ≤ 100 * 1.15)]
  · simp only [calcResultLoad]
    rw [if_pos (by norm_num : (115:ℝ) ≥ 100 * 1.15)]
  · rw [calcDamage_ip_eq, if_pos (by norm_num : (132:ℝ) ≤ 120 * 1.10)]
  · simp only [calcResultIP]
    rw [if_pos (by norm_num : (132:ℝ) ≥ 120 * 1.1)]

/-- C1 (amended): each damage field is `"OK"` iff its value is at most the
threshold, while the verdict is OK iff the value is strictly below it; hence
the two agree everywhere except exactly at the threshold (where the verdict is
non-OK but damage is `"OK"`), and strictly above the threshold the damage is a
non-negative integer percentage string. -/
theorem calcDamage_ok_iff (lp li ip std : ℝ) (hli : 0 < li) (hstd : 0 < std) :
    ((calcDamage lp li ip std).load = "OK" ↔ lp ≤ li * 1.15) ∧
    ((calcDamage lp li ip std).ip = "OK" ↔ ip ≤ std * 1.10) ∧
    (lp ≠ li * 1.15 →
      ((calcDamage lp li ip std).load = "OK" ↔ calcResultLoad lp li = "OK")) ∧
    (ip ≠ std * 1.10 →
      ((calcDamage lp li ip std).ip = "OK" ↔ calcResultIP ip std = "OK")) ∧
    (li * 1.15 < lp → ∃ n : ℕ, (calcDamage lp li ip std).load = toString n ++ "%") ∧
    (std * 1.10 < ip → ∃ n : ℕ, (calcDamage lp li ip std).ip = toString n ++ "%") := by
  have h110 : (1.10 : ℝ) = 1.1 := by norm_num
  refine ⟨?_, ?_, ?_, ?_, ?_, ?_⟩
  · rw [calcDamage_load_eq]
    by_cases h : lp ≤ li * 1.15
    · rw [if_pos h]
      exact ⟨fun _ => h, fun _ => rfl⟩
    · rw [if_neg h]
      exact ⟨fun hs => absurd hs (append_percent_ne_ok _), fun hle => absurd hle h⟩
  · rw [calcDamage_ip_eq]
    by_cases h : ip ≤ std * 1.10
    · rw [if_pos h]
      exact ⟨fun _ => h, fun _ => rfl⟩
    · rw [if_neg h]
      exact ⟨fun hs => absurd hs (append_percent_ne_ok _), fun hle => absurd hle h⟩
  · intro hne
    rw [calcDamage_load_eq]
    simp only [calcResultLoad]
    by_cases h : lp ≤ li * 1.15
    · have hlt : lp < li * 1.15 := lt_of_le_of_ne h hne
      rw [if_pos h, if_neg (not_le.mpr hlt)]
    · rw [if_neg h, if_pos (le_of_lt (not_le.mp h))]
      exact ⟨fun hs => absurd hs (append_percent_ne_ok _),
        fun hs => absurd hs (by decide)⟩
  · intro hne
    rw [calcDamage_ip_eq]
    simp only [calcResultIP]
    by_cases h : ip ≤ std * 1.10
    · have hlt : ip < std * 1.1 := by
        rw [← h110]
        exact lt_of_le_of_ne h hne
      rw [if_pos h, if_neg (not_le.mpr hlt)]
    · rw [if_neg h, if_pos (le_of_lt (by rw [← h110]; exact not_le.mp h))]
      exact ⟨fun hs => absurd hs (append_percent_ne_ok _),
        fun hs => absurd hs (by decide)⟩
  · intro hgt
    rw [calcDamage_load_eq, if_neg (not_le.mpr hgt)]
    have hnum : 0 < lp - li := by nlinarith
    have hpct : 0 < (lp - li) / li * 100 :=
      mul_pos (div_pos hnum hli) (by norm_num)
    simp only [jsToFixed0]
    rw [if_neg (not_lt.mpr hpct.le)]
    refine ⟨(⌊(lp - li) / li * 100 + 1 / 2⌋).toNat, ?_⟩
    have hfl : (0:ℤ) ≤ ⌊(lp - li) / li * 100 + 1 / 2⌋ :=
      Int.floor_nonneg.mpr (by linarith)
    rw [← Int.toNat_of_nonneg hfl]
    rfl
  · intro hgt
    rw [calcDamage_ip_eq, if_neg (not_le.mpr hgt)]
    have hnum : 0 < ip - std := by nlinarith
    have hpct : 0 < (ip - std) / std * 100 :=
      mul_pos (div_pos hnum hstd) (by norm_num)
    simp only [jsToFixed0]
    rw [if_neg (not_lt.mpr hpct.le)]
    refine ⟨(⌊(ip - std) / std * 100 + 1 / 2⌋).toNat, ?_⟩
    have hfl : (0:ℤ) ≤ ⌊(ip - std) / std * 100 + 1 / 2⌋ :=
      Int.floor_nonneg.mpr (by linarith)
    rw [← Int.toNat_of_nonneg hfl]
    rfl

/-- Witness for C1 (amended) at `loadPerTire = 116`, `loadIndex = 100`,
`ipByETRTO = 130`, `stdPressure = 120`. -/
theorem calcDamage_ok_iff_witness :
    (0:ℝ) < 100 ∧ (0:ℝ) < 120 ∧
    (((calcDamage 116 100 130 120).load = "OK" ↔ (116:ℝ) ≤ 100 * 1.15) ∧
     ((calcDamage 116 100 130 120).ip = "OK" ↔ (130:ℝ) ≤ 120 * 1.10) ∧
     ((116:ℝ) ≠ 100 * 1.15 →
       ((calcDamage 116 100 130 120).load = "OK" ↔ calcResultLoad 116 100 = "OK")) ∧
     ((130:ℝ) ≠ 120 * 1.10 →
       ((calcDamage 116 100 130 120).ip = "OK" ↔ calcResultIP 130 120 = "OK")) ∧
     ((100:ℝ) * 1.15 < 116 →
       ∃ n : ℕ, (calcDamage 116 100 130 120).load = toString n ++ "%") ∧
     ((120:ℝ) * 1.10 < 130 →
       ∃ n : ℕ, (calcDamage 116 100 130 120).ip = toString n ++ "%")) :=
  ⟨by norm_num, by norm_num,
    calcDamage_ok_iff 116 100 130 120 (by norm_num) (by norm_num)⟩

/-- C3: for the documented scenario (loadIndex 2722 kg, stdIP 120 psi, total
load 35 t, one position with distribution 0.18 on 2 tires) the load per tire
is 3150 kg, the load verdict is `"Over Load"`, and the load damage is `"16%"`. -/
theorem scenario_overload_damage :
    loadPerTire 35 0.18 2 = 3150 ∧
    calcResultLoad (loadPerTire 35 0.18 2) 2722 = "Over Load" ∧
    (calcDamage (loadPerTire 35 0.18 2) 2722
      (calcIPByETRTO (loadPerTire 35 0.18 2) 2722 120) 120).load = "16%" := by
  have hlp : loadPerTire 35 0.18 2 = 3150 := by
    simp only [loadPerTire]
    norm_num
  refine ⟨hlp, ?_, ?_⟩
  · rw [hlp]
    simp only [calcResultLoad]
    rw [if_pos (by norm_num : (3150:ℝ) ≥ 2722 * 1.15)]
  · rw [hlp, calcDamage_load_eq]
    rw [if_neg (by norm_num : ¬((3150:ℝ) ≤ 2722 * 1.15))]
    simp only [jsToFixed0]
    rw [if_neg (by norm_num : ¬(((3150:ℝ) - 2722) / 2722 * 100 < 0))]
    have hfl : ⌊((3150:ℝ) - 2722) / 2722 * 100 + 1 / 2⌋ = 16 := by
      rw [Int.floor_eq_iff]
      norm_num
    rw [hfl]
    rfl

/-- C6: when a row's factor for the requested symbol is absent (`null`) or
zero, `getLimitLoad` returns exactly `0` (no exception path exists: the
JavaScript multiplication treats `null` as `0`); in particular this holds for
the row obtained by resolving a speed with `lookupSpeedRow`. -/
theorem getLimitLoad_absent_zero (li : ℝ) (row : SpeedRow) (sym : SpeedSymbol) :
    ((row.factor sym = none ∨ row.factor sym = some 0) →
      getLimitLoad li row sym = 0) ∧
    (∀ (data : TireData) (sp : ℝ) (row2 : SpeedRow),
      lookupSpeedRow data sp = some row2 →
      (row2.factor sym = none ∨ row2.factor sym = some 0) →
      getLimitLoad li row2 sym = 0) := by
  have hmain : ∀ r : SpeedRow, (r.factor sym = none ∨ r.factor sym = some 0) →
      getLimitLoad li r sym = 0 := by
    intro r hr
    rcases hr with h | h <;> simp [getLimitLoad, h]
  exact ⟨hmain row, fun data sp row2 _ h => hmain row2 h⟩

/-- Witness for C6: a one-row table whose row has a `null` factor for `J`;
resolving speed 50 yields that row and its limit load is `0`. -/
theorem getLimitLoad_absent_zero_witness :
    lookupSpeedRow ⟨[], [mkRow 10 5]⟩ 50 = some (mkRow 10 5) ∧
    (mkRow 10 5).factor SpeedSymbol.J = none ∧
    getLimitLoad 100 (mkRow 10 5) SpeedSymbol.J = 0 := by
  have hlook : lookupSpeedRow ⟨[], [mkRow 10 5]⟩ 50 = some (mkRow 10 5) := by
    rw [lookupSpeedRow_eval [] _ 50 _ _ (sortBySpeed_single (mkRow 10 5))]
    rw [scanRows_cons, if_pos (by norm_num [mkRow] : (mkRow 10 5).speed ≤ (50:ℝ)),
      scanRows_nil]
  refine ⟨hlook, rfl, ?_⟩
  exact (getLimitLoad_absent_zero 100 (mkRow 10 5) SpeedSymbol.J).2
    ⟨[], [mkRow 10 5]⟩ 50 (mkRow 10 5) hlook (Or.inl rfl)

/-- C9: in a single calculation pass, every produced `PositionResult` carries
exactly the row that `lookupSpeedRow` resolves for the pass's speed — the row
is shared by all positions rather than re-derived per position. -/
theorem positionResults_shared_row (data : TireData) (tire : Tire)
    (totalLoad speed : ℝ) (positions : List TirePosition) :
    ((positionResults data tire totalLoad speed positions).getD []).Forall
      (fun res => lookupSpeedRow data speed = some res.row) := by
  cases h : lookupSpeedRow data speed with
  | none => simp [positionResults, h, List.Forall]
  | some row =>
      simp only [positionResults, h, Option.map_some', Option.getD_some]
      induction positions with
      | nil => simp [List.Forall]
      | cons p ps ih =>
          simp only [List.map_cons, List.forall_cons]
          exact ⟨trivial, ih⟩

/-- C7 counterexample: with a zero load index, `calcIPByETRTO` does not fail
with an error condition — JavaScript division is total and the call returns
`Infinity`. -/
theorem calcIPByETRTOjs_zero_loadIndex_cex :
    calcIPByETRTOjs (.num 100) (.num 0) (.num 120) = JSNum.posInf := by
  have h1 : jsDiv (JSNum.num 100) (JSNum.num 0) = JSNum.posInf := by
    norm_num [jsDiv]
  have h2 : jsPow125 JSNum.posInf = JSNum.posInf := by simp only [jsPow125]
  have h3 : jsMul JSNum.posInf (JSNum.num 120) = JSNum.posInf := by
    norm_num [jsMul]
  simp only [calcIPByETRTOjs, h1, h2, h3]

/-- C7 (amended): `calcIPByETRTO` never raises an error.  For a positive load
index and non-negative load the JavaScript evaluation agrees with the exact
formula `((loadPerTire / loadIndex) ^ 1.25) * stdIP`, and a zero load yields
exactly zero pressure. -/
theorem calcIPByETRTOjs_pos_spec (lp li std : ℝ) (hli : 0 < li) (hlp : 0 ≤ lp) :
    calcIPByETRTOjs (.num lp) (.num li) (.num std)
      = .num (calcIPByETRTO lp li std) ∧
    calcIPByETRTO 0 li std = 0 := by
  have hz : calcIPByETRTO 0 li std = 0 := by
    simp only [calcIPByETRTO]
    rw [zero_div, Real.zero_rpow (by norm_num : (1.25:ℝ) ≠ 0), zero_mul]
  refine ⟨?_, hz⟩
  simp only [calcIPByETRTOjs]
  have hdiv : jsDiv (JSNum.num lp) (JSNum.num li) = JSNum.num (lp / li) := by
    simp only [jsDiv]
    rw [if_neg (ne_of_gt hli)]
  rw [hdiv]
  rcases eq_or_lt_of_le hlp with h0 | hpos
  · rw [← h0, zero_div, hz]
    have hp : jsPow125 (JSNum.num 0) = JSNum.num 0 := by
      norm_num [jsPow125]
    rw [hp]
    simp only [jsMul]
    rw [zero_mul]
  · have hp : jsPow125 (JSNum.num (lp / li))
        = JSNum.num ((lp / li) ^ (1.25:ℝ)) := by
      simp only [jsPow125]
      rw [if_pos (div_pos hpos hli)]
    rw [hp]
    simp only [jsMul]
    rfl

/-- Witness for C7 (amended) at load 50, load index 100, standard pressure 120. -/
theorem calcIPByETRTOjs_pos_spec_witness :
    (0:ℝ) < 100 ∧ (0:ℝ) ≤ 50 ∧
    (calcIPByETRTOjs (.num 50) (.num 100) (.num 120)
        = .num (calcIPByETRTO 50 100 120) ∧
      calcIPByETRTO 0 100 120 = 0) :=
  ⟨by norm_num, by norm_num,
    calcIPByETRTOjs_pos_spec 50 100 120 (by norm_num) (by norm_num)⟩

/-- C8 counterexample: with `loadDistribution = 0` (a value the data model
allows), raising the total load from 1 t to 2 t leaves both the load per tire
and the computed inflation pressure unchanged, so the increase is not strict. -/
theorem loadPerTire_zero_dist_cex :
    loadPerTire 1 0 2 = loadPerTire 2 0 2 ∧
    calcIPByETRTO (loadPerTire 1 0 2) 100 120
      = calcIPByETRTO (loadPerTire 2 0 2) 100 120 := by
  have h1 : loadPerTire 1 0 2 = 0 := by simp [loadPerTire]
  have h2 : loadPerTire 2 0 2 = 0 := by simp [loadPerTire]
  rw [h1, h2]
  exact ⟨rfl, rfl⟩

/-- C8 (amended): with a strictly positive load distribution and tire count,
a positive load index and standard pressure, and a non-negative starting load,
increasing the total load strictly increases both the load per tire and the
inflation pressure computed by `calcIPByETRTO`. -/
theorem loadPerTire_ip_strictMono (t1 t2 d n li std : ℝ)
    (ht1 : 0 ≤ t1) (ht : t1 < t2) (hd : 0 < d) (hn : 0 < n)
    (hli : 0 < li) (hstd : 0 < std) :
    loadPerTire t1 d n < loadPerTire t2 d n ∧
    calcIPByETRTO (loadPerTire t1 d n) li std
      < calcIPByETRTO (loadPerTire t2 d n) li std := by
  have hlt : loadPerTire t1 d n < loadPerTire t2 d n := by
    simp only [loadPerTire]
    have h1 : t1 * d < t2 * d := mul_lt_mul_of_pos_right ht hd
    have h2 : t1 * d / n < t2 * d / n := (div_lt_div_iff_of_pos_right hn).mpr h1
    exact mul_lt_mul_of_pos_right h2 (by norm_num)
  refine ⟨hlt, ?_⟩
  have h0 : 0 ≤ loadPerTire t1 d n := by
    simp only [loadPerTire]
    exact mul_nonneg (div_nonneg (mul_nonneg ht1 hd.le) hn.le) (by norm_num)
  simp only [calcIPByETRTO]
  have hdivlt : loadPerTire t1 d n / li < loadPerTire t2 d n / li :=
    (div_lt_div_iff_of_pos_right hli).mpr hlt
  have hr : (loadPerTire t1 d n / li) ^ (1.25:ℝ)
      < (loadPerTire t2 d n / li) ^ (1.25:ℝ) :=
    Real.rpow_lt_rpow (div_nonneg h0 hli.le) hdivlt (by norm_num)
  exact mul_lt_mul_of_pos_right hr hstd

/-- Witness for C8 (amended): raising the total load from 0 t to 35 t at
distribution 0.18 over 2 tires (load index 2722, standard pressure 120). -/
theorem loadPerTire_ip_strictMono_witness :
    (0:ℝ) ≤ 0 ∧ (0:ℝ) < 35 ∧ (0:ℝ) < 0.18 ∧ (0:ℝ) < 2 ∧
    (0:ℝ) < 2722 ∧ (0:ℝ) < 120 ∧
    loadPerTire 0 0.18 2 < loadPerTire 35 0.18 2 ∧
    calcIPByETRTO (loadPerTire 0 0.18 2) 2722 120
      < calcIPByETRTO (loadPerTire 35 0.18 2) 2722 120 := by
  refine ⟨le_refl 0, by norm_num, by norm_num, by norm_num, by norm_num,
    by norm_num, ?_, ?_⟩
  · exact (loadPerTire_ip_strictMono 0 35 0.18 2 2722 120 (le_refl 0)
      (by norm_num) (by norm_num) (by norm_num) (by norm_num) (by norm_num)).1
  · exact (loadPerTire_ip_strictMono 0 35 0.18 2 2722 120 (le_refl 0)
      (by norm_num) (by norm_num) (by norm_num) (by norm_num) (by norm_num)).2
